import Mathlib

/-!
Verification of the blockchain ledger engine in `src/main.py`
(classes `Block` and `Blockchain`).

The embedding is executable throughout so that concrete states can be
evaluated by `decide`:

* SHA-256 is implemented in full over byte lists (`Nat` values below 256),
  mirroring `hashlib.sha256(...).hexdigest()`.
* `str(...)` serialization of Python values as fed to the hash is mirrored
  for the value shapes the program actually produces: `str` of an `int`
  (and of `index`/`nonce`) is the decimal string, `str` of a transaction
  dict is the Python dict repr with keys in insertion order
  (`sender`, `recipient`, `amount`, `id`), `str` of a transaction list is
  the bracketed comma-separated reprs.  Amounts are modelled as `Int`
  (integer inputs; `str` then agrees with Python).  `str(timestamp)` is
  opaque to the engine, so timestamps are modelled as the strings they
  print to, supplied as explicit arguments where the source calls
  `datetime.datetime.now()`.  Likewise `generate_transaction_id()` is
  random, so fresh ids are explicit arguments.
* The unbounded `while` loop of `proof_of_work` is modelled with
  `Nat.find` under the hypothesis that a satisfying nonce exists, which is
  exactly the loop's termination condition.
-/

set_option maxRecDepth 100000

namespace SHA256

/-- The word modulus `2 ^ 32`. -/
def M32 : Nat := 4294967296

/-- Right rotation of a 32-bit word. -/
def rotr (n x : Nat) : Nat := (x >>> n) ||| ((x <<< (32 - n)) % M32)

def bigS0 (x : Nat) : Nat := rotr 2 x ^^^ rotr 13 x ^^^ rotr 22 x

def bigS1 (x : Nat) : Nat := rotr 6 x ^^^ rotr 11 x ^^^ rotr 25 x

def smallS0 (x : Nat) : Nat := rotr 7 x ^^^ rotr 18 x ^^^ (x >>> 3)

def smallS1 (x : Nat) : Nat := rotr 17 x ^^^ rotr 19 x ^^^ (x >>> 10)

def ch (x y z : Nat) : Nat := (x &&& y) ^^^ ((x ^^^ 4294967295) &&& z)

def maj (x y z : Nat) : Nat := (x &&& y) ^^^ (x &&& z) ^^^ (y &&& z)

/-- Round constants: fractional parts of cube roots of the first 64 primes. -/
def K : List Nat :=
  [1116352408, 1899447441, 3049323471, 3921009573, 961987163, 1508970993,
   2453635748, 2870763221, 3624381080, 310598401, 607225278, 1426881987,
   1925078388, 2162078206, 2614888103, 3248222580, 3835390401, 4022224774,
   264347078, 604807628, 770255983, 1249150122, 1555081692, 1996064986,
   2554220882, 2821834349, 2952996808, 3210313671, 3336571891, 3584528711,
   113926993, 338241895, 666307205, 773529912, 1294757372, 1396182291,
   1695183700, 1986661051, 2177026350, 2456956037, 2730485921, 2820302411,
   3259730800, 3345764771, 3516065817, 3600352804, 4094571909, 275423344,
   430227734, 506948616, 659060556, 883997877, 958139571, 1322822218,
   1537002063, 1747873779, 1955562222, 2024104815, 2227730452, 2361852424,
   2428436474, 2756734187, 3204031479, 3329325298]

/-- Working state: eight 32-bit words. -/
structure St where
  a : Nat
  b : Nat
  c : Nat
  d : Nat
  e : Nat
  f : Nat
  g : Nat
  h : Nat

/-- Initial hash values: fractional parts of square roots of the first 8 primes. -/
def init : St :=
  ⟨1779033703, 3144134277, 1013904242, 2773480762,
   1359893119, 2600822924, 528734635, 1541459225⟩

/-- Big-endian byte expansion of a number into `k` bytes. -/
def beBytes : Nat → Nat → List Nat
  | 0, _ => []
  | k + 1, n => beBytes k (n / 256) ++ [n % 256]

/-- SHA-256 padding: append `0x80`, zeros, and the 64-bit big-endian bit length. -/
def pad (msg : List Nat) : List Nat :=
  let len := msg.length
  msg ++ [128] ++ List.replicate ((64 - ((len + 9) % 64)) % 64) 0 ++ beBytes 8 (len * 8)

/-- Group bytes into big-endian 32-bit words. -/
def toWords : List Nat → List Nat
  | b0 :: b1 :: b2 :: b3 :: rest => (((b0 * 256 + b1) * 256 + b2) * 256 + b3) :: toWords rest
  | _ => []

/-- Split a word list into 16-word blocks (first argument is fuel). -/
def chunk16 : Nat → List Nat → List (List Nat)
  | 0, _ => []
  | _ + 1, [] => []
  | fuel + 1, w => w.take 16 :: chunk16 fuel (w.drop 16)

/-- Extend the 16-word block, appending `k` more schedule words. -/
def extendLoop : Nat → List Nat → List Nat
  | 0, w => w
  | k + 1, w =>
    let n := w.length
    let x := (smallS1 (w.getD (n - 2) 0) + w.getD (n - 7) 0 +
              smallS0 (w.getD (n - 15) 0) + w.getD (n - 16) 0) % M32
    extendLoop k (w ++ [x])

/-- Message schedule: 64 words from a 16-word block. -/
def schedule (w : List Nat) : List Nat := extendLoop 48 w

/-- One compression round, consuming a `(K i, W i)` pair. -/
def round (s : St) (kw : Nat × Nat) : St :=
  let t1 := (s.h + bigS1 s.e + ch s.e s.f s.g + kw.1 + kw.2) % M32
  let t2 := (bigS0 s.a + maj s.a s.b s.c) % M32
  ⟨(t1 + t2) % M32, s.a, s.b, s.c, (s.d + t1) % M32, s.e, s.f, s.g⟩

/-- Process one 16-word block: 64 rounds, then add to the incoming state. -/
def block (s : St) (w : List Nat) : St :=
  let t := (List.zip K (schedule w)).foldl round s
  ⟨(s.a + t.a) % M32, (s.b + t.b) % M32, (s.c + t.c) % M32, (s.d + t.d) % M32,
   (s.e + t.e) % M32, (s.f + t.f) % M32, (s.g + t.g) % M32, (s.h + t.h) % M32⟩

/-- Lowercase hex digit. -/
def hexChar (n : Nat) : Char := Char.ofNat (if n < 10 then 48 + n else 87 + n)

/-- Eight lowercase hex digits of a 32-bit word, most significant first. -/
def wordHex (n : Nat) : List Char :=
  (List.range 8).map fun i => hexChar ((n >>> (28 - 4 * i)) &&& 15)

/-- SHA-256 digest of a byte list, as the 64 lowercase hex characters. -/
def digestChars (msg : List Nat) : List Char :=
  let ws := toWords (pad msg)
  let s := (chunk16 ws.length ws).foldl block init
  wordHex s.a ++ wordHex s.b ++ wordHex s.c ++ wordHex s.d ++
  wordHex s.e ++ wordHex s.f ++ wordHex s.g ++ wordHex s.h

end SHA256

/-- UTF-8 encoding of one code point. -/
def utf8Char (c : Nat) : List Nat :=
  if c < 128 then [c]
  else if c < 2048 then [192 + c / 64, 128 + c % 64]
  else if c < 65536 then [224 + c / 4096, 128 + (c / 64) % 64, 128 + c % 64]
  else [240 + c / 262144, 128 + (c / 4096) % 64, 128 + (c / 64) % 64, 128 + c % 64]

/-- UTF-8 bytes of a string, as in Python's `str.encode('utf-8')`. -/
def utf8 (s : String) : List Nat :=
  (s.data.map fun c => utf8Char c.toNat).foldr List.append []

/-- Python `hashlib.sha256(s.encode('utf-8')).hexdigest()`. -/
def sha256hex (s : String) : String := String.mk (SHA256.digestChars (utf8 s))

/-- A transaction dict as built by `add_transaction` / the mining reward:
keys `sender`, `recipient`, `amount`, `id` in insertion order. -/
structure Transaction where
  sender : String
  recipient : String
  amount : Int
  id : String
deriving DecidableEq

/-- The single-quote character, used by Python's dict repr. -/
def pysq : String := String.singleton (Char.ofNat 39)

def lbrace : String := String.singleton (Char.ofNat 123)

def rbrace : String := String.singleton (Char.ofNat 125)

/-- Python `repr` of a plain string: single-quoted. -/
def pyq (s : String) : String := pysq ++ s ++ pysq

/-- Python `str` of one transaction dict, e.g.
`\x7b'sender': 'A', 'recipient': 'B', 'amount': 10, 'id': 'X'\x7d`. -/
def trStr (t : Transaction) : String :=
  lbrace ++ pyq "sender" ++ ": " ++ pyq t.sender ++ ", " ++
  pyq "recipient" ++ ": " ++ pyq t.recipient ++ ", " ++
  pyq "amount" ++ ": " ++ toString t.amount ++ ", " ++
  pyq "id" ++ ": " ++ pyq t.id ++ rbrace

/-- Python `str` of a list of transaction dicts. -/
def trListStr (ts : List Transaction) : String :=
  "[" ++ String.intercalate ", " (ts.map trStr) ++ "]"

/-- A `Block`: `index`, `timestamp` (modelled by the string it prints to),
`transactions`, `previous_hash`, `nonce`, `hash`. -/
structure Block where
  index : Nat
  timestamp : String
  transactions : List Transaction
  previous_hash : String
  nonce : Nat
  hash : String
deriving DecidableEq

/-- Mirror of `Block.calculate_hash`: SHA-256 of
`str(index) + str(timestamp) + str(transactions) + str(previous_hash) + str(nonce)`. -/
def Block.calculate_hash (b : Block) : String :=
  sha256hex (toString b.index ++ b.timestamp ++ trListStr b.transactions ++
             b.previous_hash ++ toString b.nonce)

/-- Mirror of `Block.__init__`: nonce starts at 0 and `hash` is computed immediately
over the complete field set (with that initial nonce). -/
def Block.init (index : Nat) (timestamp : String) (transactions : List Transaction)
    (previous_hash : String) : Block :=
  let b : Block := ⟨index, timestamp, transactions, previous_hash, 0, ""⟩
  { b with hash := b.calculate_hash }

/-- The `Blockchain` state: the chain and the pending pool. -/
structure Blockchain where
  chain : List Block
  pending_transactions : List Transaction
deriving DecidableEq

/-- Mirror of `create_genesis_block`: `Block(index=0, timestamp=now, transactions=[], previous_hash="0")`.
The construction timestamp is an explicit argument. -/
def create_genesis_block (ts : String) : Block := Block.init 0 ts [] "0"

/-- Mirror of `Blockchain.__init__`: chain holds the genesis block, pending pool empty. -/
def Blockchain.init (ts : String) : Blockchain := ⟨[create_genesis_block ts], []⟩

/-- Mirror of `add_block`: `self.chain.append(block)`. -/
def add_block (s : Blockchain) (b : Block) : Blockchain :=
  { s with chain := s.chain ++ [b] }

/-- Mirror of `add_transaction`: append a transaction dict with a freshly generated id
(the id being random, it is an explicit argument here). -/
def add_transaction (s : Blockchain) (sender recipient : String) (amount : Int)
    (tid : String) : Blockchain :=
  { s with pending_transactions :=
      s.pending_transactions ++ [⟨sender, recipient, amount, tid⟩] }

/-- Mirror of `valid_proof`: SHA-256 of `f'\x7bblock_hash\x7d\x7bnonce\x7d'` must have first
four hex digits `0000`. -/
def valid_proof (block_hash : String) (nonce : Nat) : Bool :=
  (sha256hex (block_hash ++ toString nonce)).data.take 4 == ['0', '0', '0', '0']

/-- Mirror of `proof_of_work`: the `while` loop from nonce 0 upward returns the least
satisfying nonce; it terminates exactly when one exists, so that existence is
a hypothesis. -/
def proof_of_work (block_hash : String)
    (hex : ∃ n, valid_proof block_hash n = true) : Nat :=
  Nat.find hex

/-- Mirror of `self.chain[-1].hash` -- the hash of the last block.  (On an empty chain the
Python indexing would raise; reachable chains are never empty.) -/
def last_hash (s : Blockchain) : String :=
  match s.chain.getLast? with
  | some b => b.hash
  | none => ""

/-- The candidate block built by `mine_block`:
`Block(index=len(self.chain), timestamp=now, transactions=self.pending_transactions,
previous_hash=self.chain[-1].hash)`. -/
def candidate (s : Blockchain) (ts : String) : Block :=
  Block.init s.chain.length ts s.pending_transactions (last_hash s)

/-- Mirror of `block.nonce = self.proof_of_work(block.hash)` — the nonce field is
overwritten with the proof-of-work result; no other field (in particular not
`hash`) is touched. -/
def set_nonce (b : Block) (hex : ∃ n, valid_proof b.hash n = true) : Block :=
  { b with nonce := proof_of_work b.hash hex }

/-- Mirror of `mine_block(miner_address)`: fail on an empty pending pool; otherwise build
the candidate, run proof-of-work, append, and reset the pool to the single
reward transaction.  `ts` is the candidate's creation timestamp and
`reward_id` the generated reward-transaction id; `hpw` supplies termination of
the proof-of-work loop. -/
def mine_block (s : Blockchain) (miner_address ts reward_id : String)
    (hpw : s.pending_transactions ≠ [] →
      ∃ n, valid_proof (candidate s ts).hash n = true) : Bool × Blockchain :=
  if he : s.pending_transactions = [] then (false, s)
  else
    let b := set_nonce (candidate s ts) (hpw he)
    let s' := add_block s b
    (true, { s' with pending_transactions :=
        [⟨"Blockchain", miner_address, 1, reward_id⟩] })

/-- Mirror of `get_balance`: fold over every block's transactions; `if sender == address`
subtract, `elif recipient == address` add. -/
def get_balance (s : Blockchain) (address : String) : Int :=
  s.chain.foldl (fun bal b =>
    b.transactions.foldl (fun bal t =>
      if t.sender == address then bal - t.amount
      else if t.recipient == address then bal + t.amount
      else bal) bal) 0

/-- Mirror of `get_transaction_by_id`: nested loops over the chain returning the first
transaction whose id matches, else `None`. -/
def get_transaction_by_id (s : Blockchain) (transaction_id : String) :
    Option Transaction :=
  s.chain.findSome? fun b => b.transactions.find? fun t => t.id == transaction_id

/-- The per-pair body of the `is_chain_valid` loop, over the chain tail. -/
def chain_checks : Block → List Block → Bool
  | _, [] => true
  | prev, cur :: rest =>
    (cur.hash == cur.calculate_hash) && (cur.previous_hash == prev.hash) &&
    chain_checks cur rest

/-- Mirror of `is_chain_valid`: for `i` from 1 to the end, block `i`'s stored hash must
equal its recomputed hash and its `previous_hash` must equal block `i-1`'s
stored hash. -/
def is_chain_valid (s : Blockchain) : Bool :=
  match s.chain with
  | [] => true
  | b :: rest => chain_checks b rest

/-- States reachable through the public operations alone: construction,
`add_transaction`, `mine_block`. -/
inductive Reachable : Blockchain → Prop
  | init (ts : String) : Reachable (Blockchain.init ts)
  | add (s : Blockchain) (hs : Reachable s) (sender recipient : String)
      (amount : Int) (tid : String) :
      Reachable (add_transaction s sender recipient amount tid)
  | mine (s : Blockchain) (hs : Reachable s) (miner ts rid : String)
      (hpw : s.pending_transactions ≠ [] →
        ∃ n, valid_proof (candidate s ts).hash n = true) :
      Reachable (mine_block s miner ts rid hpw).2

/-! ### Concrete fixture used by witnesses and counterexamples

A ledger constructed with genesis timestamp `"GEN"`, one added transaction
`A → B` of amount 10 with id `"ABCDEFGHIJ"`, then mined with miner address
`"M"`, candidate timestamp `"T17123"` and reward id `"RRRRRRRRRR"`.  The
timestamp `"T17123"` is chosen so that the proof-of-work nonce is exactly 1.
-/

/-- Fixture: the ledger after construction and one `add_transaction`. -/
def S1 : Blockchain :=
  add_transaction (Blockchain.init "GEN") "A" "B" 10 "ABCDEFGHIJ"

/-- Termination of the proof-of-work loop for a mine on the freshly
constructed ledger: vacuous, the pool is empty. -/
def hpw0 : (Blockchain.init "GEN").pending_transactions ≠ [] →
    ∃ n, valid_proof (candidate (Blockchain.init "GEN") "T0").hash n = true :=
  fun h => absurd rfl h

/-- Termination of the proof-of-work loop for the fixture mine: nonce 1 is
accepted (checked by evaluation). -/
def hpw1 : S1.pending_transactions ≠ [] →
    ∃ n, valid_proof (candidate S1 "T17123").hash n = true :=
  fun _ => ⟨1, by decide⟩

/-- Fixture: the ledger after the successful mine. -/
def S2 : Blockchain := (mine_block S1 "M" "T17123" "RRRRRRRRRR" hpw1).2

/-- Termination of the proof-of-work loop for a second mine on `S2` at
timestamp `"T2"`: nonce 33315 is accepted (checked by evaluation). -/
def hpw2 : S2.pending_transactions ≠ [] →
    ∃ n, valid_proof (candidate S2 "T2").hash n = true :=
  fun _ => ⟨33315, by decide⟩

/-- Per-transaction balance contribution, written from the spec's words:
subtract the amount when the sender matches, else (mutually exclusively) add
it when the recipient matches. -/
def contribution (address : String) (t : Transaction) : Int :=
  if t.sender = address then -t.amount
  else if t.recipient = address then t.amount
  else 0

/-- The balance as the spec describes it: sum of the contributions of every
committed block's every transaction, in chain order. -/
def balance_spec (chain : List Block) (address : String) : Int :=
  ((chain.flatMap fun b => b.transactions).map (contribution address)).sum

/-- A small hand-built block for the balance/lookup witnesses (its hash fields
are irrelevant to `get_balance` and `get_transaction_by_id`). -/
def wBlock : Block :=
  ⟨1, "TS",
   [⟨"A", "B", 10, "I1"⟩, ⟨"A", "A", 5, "I2"⟩, ⟨"Blockchain", "M", 1, "I3"⟩],
   "0", 0, "H"⟩

/-! ### Theorems -/

/-- Known-answer test anchoring the SHA-256 implementation. -/
theorem sha256_kat :
    sha256hex "abc" =
      "ba7816bf8f01cfea414140de5dae2223b00361a396177a9cb410ff61f20015ad" := by
  decide

/-- Sanity anchor for the serialization: the genesis hash of the fixture
matches `hashlib.sha256(b"0GEN[]00").hexdigest()`. -/
theorem genesis_hash_val :
    (create_genesis_block "GEN").hash =
      "4a7e40b962736eb8372fe372c7f0d2451b88029c92d2e561c7f7486519a0c530" := by
  decide

/-- Mining with an empty pending pool returns `(False, unchanged state)`. -/
theorem mine_block_neg (s : Blockchain) (miner ts rid : String)
    (hpw : s.pending_transactions ≠ [] →
      ∃ n, valid_proof (candidate s ts).hash n = true)
    (he : s.pending_transactions = []) :
    mine_block s miner ts rid hpw = (false, s) := by
  unfold mine_block
  rw [dif_pos he]

/-- Mining with a non-empty pending pool appends the nonce-overwritten
candidate and resets the pool to the single reward transaction. -/
theorem mine_block_pos (s : Blockchain) (miner ts rid : String)
    (hpw : s.pending_transactions ≠ [] →
      ∃ n, valid_proof (candidate s ts).hash n = true)
    (hne : s.pending_transactions ≠ []) :
    mine_block s miner ts rid hpw =
      (true, ⟨s.chain ++ [set_nonce (candidate s ts) (hpw hne)],
              [⟨"Blockchain", miner, 1, rid⟩]⟩) := by
  unfold mine_block
  rw [dif_neg hne]
  rfl

/-- The fixture ledger has a pending transaction. -/
theorem S1_ne : S1.pending_transactions ≠ [] := by decide

/-- On the fixture candidate the proof-of-work loop returns exactly 1. -/
theorem pow1 (hex : ∃ n, valid_proof (candidate S1 "T17123").hash n = true) :
    proof_of_work (candidate S1 "T17123").hash hex = 1 := by
  unfold proof_of_work
  rw [Nat.find_eq_iff]
  refine ⟨by decide, ?_⟩
  intro m hm
  have hm0 : m = 0 := Nat.lt_one_iff.mp hm
  subst hm0
  decide

/-- The sealed fixture block is the candidate with nonce 1 (hash untouched). -/
theorem set_nonce_S1 : set_nonce (candidate S1 "T17123") (hpw1 S1_ne) =
    { candidate S1 "T17123" with nonce := 1 } := by
  unfold set_nonce
  rw [pow1]

/-- Explicit form of the post-mine fixture state. -/
theorem S2_eq : S2 =
    ⟨[create_genesis_block "GEN", { candidate S1 "T17123" with nonce := 1 }],
     [⟨"Blockchain", "M", 1, "RRRRRRRRRR"⟩]⟩ := by
  unfold S2
  rw [mine_block_pos S1 "M" "T17123" "RRRRRRRRRR" hpw1 S1_ne, set_nonce_S1]
  rfl

/-- Unfolding of the proof-of-work acceptance test: the hex digest of the
candidate hash concatenated with the decimal nonce starts with four zeros. -/
theorem valid_proof_iff (bh : String) (n : Nat) :
    valid_proof bh n = true ↔
      (sha256hex (bh ++ toString n)).data.take 4 = ['0', '0', '0', '0'] := by
  unfold valid_proof
  exact beq_iff_eq

/-- C1: the invariant `hash == recompute_hash(fields)` FAILS on the code.  A
successful mine sets the accepted nonce but never recomputes `hash`, so the
committed block keeps the nonce-0 provisional hash: on the fixture, the last
block of the mined chain is the candidate with only its nonce overwritten,
its stored hash equals the candidate's nonce-0 hash, and that stored hash
differs from the hash recomputed over its own fields (which include the
final nonce 1). -/
theorem C1_mined_block_keeps_nonce0_hash :
    S2.chain.getLast? = some { candidate S1 "T17123" with nonce := 1 } ∧
    ({ candidate S1 "T17123" with nonce := 1 } : Block).hash =
      (candidate S1 "T17123").hash ∧
    ({ candidate S1 "T17123" with nonce := 1 } : Block).hash ≠
      Block.calculate_hash { candidate S1 "T17123" with nonce := 1 } :=
  ⟨by rw [S2_eq]; rfl, rfl, by decide⟩

/-- C2: `is_chain_valid` is FALSE on an untampered state reached solely
through the public operations: the fixture state `S2`, reached by
construction, one `add_transaction` and one successful `mine_block`, is
flagged invalid (because the committed hash was never recomputed after the
nonce was set). -/
theorem C2_reachable_chain_flagged_invalid :
    Reachable S2 ∧ is_chain_valid S2 = false := by
  constructor
  · have h1 : Reachable S1 :=
      Reachable.add (Blockchain.init "GEN") (Reachable.init "GEN")
        "A" "B" 10 "ABCDEFGHIJ"
    exact Reachable.mine S1 h1 "M" "T17123" "RRRRRRRRRR" hpw1
  · rw [S2_eq]
    decide

/-- C3: `mine_block` returns false iff the pending pool is empty at call
time; in the false case the returned state is the unchanged input state, and
in the true case exactly one block is appended to the chain. -/
theorem C3_mine_result (s : Blockchain) (miner ts rid : String)
    (hpw : s.pending_transactions ≠ [] →
      ∃ n, valid_proof (candidate s ts).hash n = true) :
    ((mine_block s miner ts rid hpw).1 = false ↔ s.pending_transactions = []) ∧
    (s.pending_transactions = [] → mine_block s miner ts rid hpw = (false, s)) ∧
    (s.pending_transactions ≠ [] →
      ∃ b, (mine_block s miner ts rid hpw).2.chain = s.chain ++ [b]) := by
  by_cases he : s.pending_transactions = []
  · rw [mine_block_neg s miner ts rid hpw he]
    exact ⟨⟨fun _ => he, fun _ => rfl⟩, fun _ => rfl, fun hne => absurd he hne⟩
  · rw [mine_block_pos s miner ts rid hpw he]
    exact ⟨⟨fun h => Bool.noConfusion h, fun h => absurd h he⟩,
           fun h => absurd h he,
           fun _ => ⟨set_nonce (candidate s ts) (hpw he), rfl⟩⟩

/-- Witness for C3 at concrete inputs: the freshly constructed ledger (empty
pool: mine fails and changes nothing) and the fixture ledger (non-empty
pool: one block is appended). -/
theorem C3_mine_result_witness :
    ((Blockchain.init "GEN").pending_transactions = [] ∧
      mine_block (Blockchain.init "GEN") "M" "T0" "R" hpw0 =
        (false, Blockchain.init "GEN")) ∧
    (S1.pending_transactions ≠ [] ∧
      ∃ b, (mine_block S1 "M" "T17123" "RRRRRRRRRR" hpw1).2.chain =
        S1.chain ++ [b]) :=
  ⟨⟨rfl, (C3_mine_result (Blockchain.init "GEN") "M" "T0" "R" hpw0).2.1 rfl⟩,
   ⟨by decide,
    (C3_mine_result S1 "M" "T17123" "RRRRRRRRRR" hpw1).2.2 (by decide)⟩⟩

/-- C4: under the precondition that a satisfying nonce exists, the nonce of
the block committed by a successful mine is the least `n ≥ 0` such that the
SHA-256 hex digest of the candidate's nonce-0 hash concatenated with the
decimal string of `n` starts with `0000`: the digest at the committed nonce
has that four-zero head, and for every smaller nonce it does not. -/
theorem C4_pow_least (s : Blockchain) (miner ts rid : String)
    (hpw : s.pending_transactions ≠ [] →
      ∃ n, valid_proof (candidate s ts).hash n = true)
    (hne : s.pending_transactions ≠ []) :
    (candidate s ts).nonce = 0 ∧
    ∃ b, (mine_block s miner ts rid hpw).2.chain = s.chain ++ [b] ∧
      (sha256hex ((candidate s ts).hash ++ toString b.nonce)).data.take 4 =
        ['0', '0', '0', '0'] ∧
      ∀ m < b.nonce,
        (sha256hex ((candidate s ts).hash ++ toString m)).data.take 4 ≠
          ['0', '0', '0', '0'] := by
  refine ⟨rfl, set_nonce (candidate s ts) (hpw hne), ?_, ?_, ?_⟩
  · rw [mine_block_pos s miner ts rid hpw hne]
  · exact (valid_proof_iff _ _).mp (Nat.find_spec (hpw hne))
  · intro m hm hc
    exact Nat.find_min (hpw hne) hm ((valid_proof_iff _ _).mpr hc)

/-- Witness for C4 at the fixture mine. -/
theorem C4_pow_least_witness :
    S1.pending_transactions ≠ [] ∧
    ((candidate S1 "T17123").nonce = 0 ∧
      ∃ b, (mine_block S1 "M" "T17123" "RRRRRRRRRR" hpw1).2.chain =
          S1.chain ++ [b] ∧
        (sha256hex ((candidate S1 "T17123").hash ++ toString b.nonce)).data.take 4 =
          ['0', '0', '0', '0'] ∧
        ∀ m < b.nonce,
          (sha256hex ((candidate S1 "T17123").hash ++ toString m)).data.take 4 ≠
            ['0', '0', '0', '0']) :=
  ⟨by decide, C4_pow_least S1 "M" "T17123" "RRRRRRRRRR" hpw1 (by decide)⟩

/-- Evaluation of the inner transaction fold of `get_balance` as a sum of
spec-side contributions. -/
theorem inner_fold (address : String) (l : List Transaction) (b0 : Int) :
    l.foldl (fun bal t =>
      if t.sender == address then bal - t.amount
      else if t.recipient == address then bal + t.amount
      else bal) b0 =
    b0 + ((l.map (contribution address)).sum) := by
  induction l generalizing b0 with
  | nil => simp
  | cons t l ih =>
    rw [List.foldl_cons, ih, List.map_cons, List.sum_cons]
    by_cases hs : t.sender = address <;> by_cases hr : t.recipient = address <;>
      simp [contribution, hs, hr] <;> ring

/-- Evaluation of `get_balance` as the spec-side fold over the flattened
committed transactions, for any pending pool. -/
theorem get_balance_spec (chain : List Block) (p : List Transaction)
    (address : String) :
    get_balance ⟨chain, p⟩ address = balance_spec chain address := by
  suffices h : ∀ (c : List Block) (b0 : Int),
      c.foldl (fun bal b =>
        b.transactions.foldl (fun bal t =>
          if t.sender == address then bal - t.amount
          else if t.recipient == address then bal + t.amount
          else bal) bal) b0 =
      b0 + ((c.flatMap fun b => b.transactions).map (contribution address)).sum by
    have h2 := h chain 0
    rw [zero_add] at h2
    exact h2
  intro c
  induction c with
  | nil => intro b0; simp
  | cons blk c ih =>
    intro b0
    rw [List.foldl_cons, List.flatMap_cons, List.map_append, List.sum_append,
        ih, inner_fold]
    ring

/-- C5: `get_balance` equals the spec fold (subtract when the sender matches,
else — mutually exclusively — add when the recipient matches, over every
committed block's every transaction in chain order); the pending pool
contributes nothing; an address appearing in no committed transaction has
balance 0; and a transaction whose sender matches contributes `-amount` even
when its recipient also matches (debit only, never credit). -/
theorem C5_balance (chain : List Block) (p pp : List Transaction)
    (address : String) :
    get_balance ⟨chain, p⟩ address = balance_spec chain address ∧
    get_balance ⟨chain, p⟩ address = get_balance ⟨chain, pp⟩ address ∧
    ((∀ t ∈ chain.flatMap fun b => b.transactions,
        t.sender ≠ address ∧ t.recipient ≠ address) →
      get_balance ⟨chain, p⟩ address = 0) ∧
    (∀ t : Transaction, t.sender = address → contribution address t = -t.amount) := by
  refine ⟨get_balance_spec chain p address,
    by rw [get_balance_spec chain p address, get_balance_spec chain pp address],
    ?_, ?_⟩
  · intro hall
    rw [get_balance_spec chain p address]
    unfold balance_spec
    refine List.sum_eq_zero ?_
    intro x hx
    rw [List.mem_map] at hx
    obtain ⟨t, ht, rfl⟩ := hx
    obtain ⟨h1, h2⟩ := hall t ht
    simp [contribution, h1, h2]
  · intro t hs
    simp [contribution, hs]

/-- Witness for C5: on a one-block chain holding `A→B 10`, `A→A 5` and
`Blockchain→M 1` and a non-empty pending pool, the address `Z` (appearing
nowhere committed) has balance 0; the hypotheses are checked by evaluation. -/
theorem C5_balance_witness :
    (∀ t ∈ [wBlock].flatMap fun b => b.transactions,
        t.sender ≠ "Z" ∧ t.recipient ≠ "Z") ∧
    get_balance ⟨[wBlock], [⟨"P", "Q", 7, "I9"⟩]⟩ "Z" = 0 :=
  ⟨by decide,
   (C5_balance [wBlock] [⟨"P", "Q", 7, "I9"⟩] [] "Z").2.2.1 (by decide)⟩

/-- Description of `find?` on an appended list: the first match of the left
part wins, else the right part is searched. -/
theorem findq_append {α : Type} (p : α → Bool) (l1 l2 : List α) :
    (l1 ++ l2).find? p = ((l1.find? p).orElse fun _ => l2.find? p) := by
  induction l1 with
  | nil => simp
  | cons a l ih =>
    by_cases h : p a
    · simp [List.find?_cons, h]
    · simp [List.find?_cons, h, ih]

/-- Evaluation of the nested first-match loops of `get_transaction_by_id` as
one `find?` over the in-order flattening of the chain's transactions. -/
theorem lookup_flat (chain : List Block) (tid : String) :
    List.findSome? (fun b => b.transactions.find? fun t => t.id == tid) chain =
      (chain.flatMap fun b => b.transactions).find? (fun t => t.id == tid) := by
  induction chain with
  | nil => simp
  | cons b c ih =>
    rw [List.findSome?_cons, List.flatMap_cons, findq_append]
    cases h : b.transactions.find? (fun t => t.id == tid) with
    | none => exact ih
    | some t => rfl

/-- C8: `get_transaction_by_id` returns the first transaction of the
committed chain whose id matches, taking blocks in chain order and
transactions within a block in stored order; the pending pool is never
consulted; and when no committed transaction has the id the result is
`none`. -/
theorem C8_lookup (chain : List Block) (p pp : List Transaction) (tid : String) :
    get_transaction_by_id ⟨chain, p⟩ tid =
      (chain.flatMap fun b => b.transactions).find? (fun t => t.id == tid) ∧
    get_transaction_by_id ⟨chain, p⟩ tid = get_transaction_by_id ⟨chain, pp⟩ tid ∧
    ((∀ t ∈ chain.flatMap fun b => b.transactions, t.id ≠ tid) →
      get_transaction_by_id ⟨chain, p⟩ tid = none) := by
  refine ⟨lookup_flat chain tid, rfl, ?_⟩
  intro hall
  have h1 : get_transaction_by_id ⟨chain, p⟩ tid =
      (chain.flatMap fun b => b.transactions).find? (fun t => t.id == tid) :=
    lookup_flat chain tid
  rw [h1, List.find?_eq_none]
  intro t ht
  simp [hall t ht]

/-- Witness for C8: the pending pool holds a transaction with the looked-up
id but the chain does not, and the lookup returns `none`. -/
theorem C8_lookup_witness :
    (∀ t ∈ [wBlock].flatMap fun b => b.transactions, t.id ≠ "P1") ∧
    get_transaction_by_id ⟨[wBlock], [⟨"P", "Q", 7, "P1"⟩]⟩ "P1" = none :=
  ⟨by decide,
   (C8_lookup [wBlock] [⟨"P", "Q", 7, "P1"⟩] [] "P1").2.2 (by decide)⟩

/-- C6: after every successful mine, the pending pool is exactly the
one-element sequence holding the reward transaction (sender `"Blockchain"`,
recipient the miner address, amount 1, the freshly generated id); the
previously pending transactions are gone from the pool, having been
committed as the new block's transaction list. -/
theorem C6_reward_pool (s : Blockchain) (miner ts rid : String)
    (hpw : s.pending_transactions ≠ [] →
      ∃ n, valid_proof (candidate s ts).hash n = true) :
    (mine_block s miner ts rid hpw).1 = true →
      (mine_block s miner ts rid hpw).2.pending_transactions =
        [⟨"Blockchain", miner, 1, rid⟩] ∧
      ∃ b, (mine_block s miner ts rid hpw).2.chain = s.chain ++ [b] ∧
        b.transactions = s.pending_transactions := by
  intro ht
  by_cases he : s.pending_transactions = []
  · rw [mine_block_neg s miner ts rid hpw he] at ht
    exact Bool.noConfusion ht
  · rw [mine_block_pos s miner ts rid hpw he]
    exact ⟨rfl, set_nonce (candidate s ts) (hpw he), rfl, rfl⟩

/-- Witness for C6 at the fixture mine. -/
theorem C6_reward_pool_witness :
    (mine_block S1 "M" "T17123" "RRRRRRRRRR" hpw1).1 = true ∧
    ((mine_block S1 "M" "T17123" "RRRRRRRRRR" hpw1).2.pending_transactions =
        [⟨"Blockchain", "M", 1, "RRRRRRRRRR"⟩] ∧
      ∃ b, (mine_block S1 "M" "T17123" "RRRRRRRRRR" hpw1).2.chain =
          S1.chain ++ [b] ∧
        b.transactions = S1.pending_transactions) := by
  have ht : (mine_block S1 "M" "T17123" "RRRRRRRRRR" hpw1).1 = true := by
    rw [mine_block_pos S1 "M" "T17123" "RRRRRRRRRR" hpw1 S1_ne]
  exact ⟨ht, C6_reward_pool S1 "M" "T17123" "RRRRRRRRRR" hpw1 ht⟩

/-- C7: the block appended by a successful mine is built with index equal to
the chain length at call time, timestamp the mine-time timestamp,
transactions the pending pool contents at call time, and previous hash the
stored hash of the chain's last block — but its committed `hash` field IS
the candidate's initial nonce-0 hash: the code never discards it in favour
of a recomputed one, contradicting the claim's final clause. -/
theorem C7_candidate_construction (s : Blockchain) (miner ts rid : String)
    (hpw : s.pending_transactions ≠ [] →
      ∃ n, valid_proof (candidate s ts).hash n = true)
    (hne : s.pending_transactions ≠ []) :
    ∃ b, (mine_block s miner ts rid hpw).2.chain = s.chain ++ [b] ∧
      b.index = s.chain.length ∧
      b.timestamp = ts ∧
      b.transactions = s.pending_transactions ∧
      b.previous_hash = last_hash s ∧
      b.hash = (candidate s ts).hash := by
  refine ⟨set_nonce (candidate s ts) (hpw hne), ?_, rfl, rfl, rfl, rfl, rfl⟩
  rw [mine_block_pos s miner ts rid hpw hne]

/-- Witness for C7 at the fixture mine. -/
theorem C7_candidate_construction_witness :
    S1.pending_transactions ≠ [] ∧
    ∃ b, (mine_block S1 "M" "T17123" "RRRRRRRRRR" hpw1).2.chain =
        S1.chain ++ [b] ∧
      b.index = S1.chain.length ∧
      b.timestamp = "T17123" ∧
      b.transactions = S1.pending_transactions ∧
      b.previous_hash = last_hash S1 ∧
      b.hash = (candidate S1 "T17123").hash :=
  ⟨by decide,
   C7_candidate_construction S1 "M" "T17123" "RRRRRRRRRR" hpw1 (by decide)⟩

/-- C9: a freshly constructed ledger's chain is exactly the genesis block
(index 0, previous hash `"0"`, no transactions); in every reachable state
block 0 is still a genesis block; and neither public operation removes,
reorders or mutates committed blocks — `add_transaction` leaves the chain
untouched and `mine_block` only appends, so the prior chain is always an
unchanged prefix. -/
theorem C9_genesis_append_only :
    (∀ ts : String, (Blockchain.init ts).chain = [create_genesis_block ts] ∧
      (create_genesis_block ts).index = 0 ∧
      (create_genesis_block ts).previous_hash = "0" ∧
      (create_genesis_block ts).transactions = []) ∧
    (∀ s : Blockchain, Reachable s →
      ∃ ts0, s.chain.head? = some (create_genesis_block ts0)) ∧
    (∀ (s : Blockchain) (sender recipient : String) (amount : Int) (tid : String),
      (add_transaction s sender recipient amount tid).chain = s.chain) ∧
    (∀ (s : Blockchain) (miner ts rid : String)
      (hpw : s.pending_transactions ≠ [] →
        ∃ n, valid_proof (candidate s ts).hash n = true),
      ∃ t, (mine_block s miner ts rid hpw).2.chain = s.chain ++ t) := by
  refine ⟨fun ts => ⟨rfl, rfl, rfl, rfl⟩, ?_, fun s sender recipient amount tid => rfl, ?_⟩
  · intro s hs
    induction hs with
    | init ts => exact ⟨ts, rfl⟩
    | add s hs sender recipient amount tid ih => exact ih
    | mine s hs miner ts rid hpw ih =>
      by_cases he : s.pending_transactions = []
      · rw [mine_block_neg s miner ts rid hpw he]
        exact ih
      · rw [mine_block_pos s miner ts rid hpw he]
        obtain ⟨ts0, h0⟩ := ih
        refine ⟨ts0, ?_⟩
        cases hc : s.chain with
        | nil => rw [hc] at h0; exact Option.noConfusion h0
        | cons a l =>
          rw [hc] at h0
          simpa using h0
  · intro s miner ts rid hpw
    by_cases he : s.pending_transactions = []
    · rw [mine_block_neg s miner ts rid hpw he]
      exact ⟨[], by simp⟩
    · rw [mine_block_pos s miner ts rid hpw he]
      exact ⟨[set_nonce (candidate s ts) (hpw he)], rfl⟩

/-- Witness for C9: the freshly constructed ledger is reachable and its
block 0 is a genesis block. -/
theorem C9_genesis_append_only_witness :
    Reachable (Blockchain.init "GEN") ∧
    ∃ ts0, (Blockchain.init "GEN").chain.head? = some (create_genesis_block ts0) :=
  ⟨Reachable.init "GEN",
   C9_genesis_append_only.2.1 (Blockchain.init "GEN") (Reachable.init "GEN")⟩

/-- C10: a successful mine leaves the pending pool non-empty (it holds the
reward transaction), `add_transaction` only appends to the pool, and a mine
immediately following a successful mine always succeeds. -/
theorem C10_mine_enables_mine (s : Blockchain) (miner ts rid : String)
    (hpw : s.pending_transactions ≠ [] →
      ∃ n, valid_proof (candidate s ts).hash n = true) :
    ((mine_block s miner ts rid hpw).1 = true →
      (mine_block s miner ts rid hpw).2.pending_transactions ≠ []) ∧
    (∀ (sender recipient : String) (amount : Int) (tid : String),
      (add_transaction s sender recipient amount tid).pending_transactions =
        s.pending_transactions ++ [⟨sender, recipient, amount, tid⟩]) ∧
    (∀ (miner2 ts2 rid2 : String)
      (hpw2 : (mine_block s miner ts rid hpw).2.pending_transactions ≠ [] →
        ∃ n, valid_proof
          (candidate (mine_block s miner ts rid hpw).2 ts2).hash n = true),
      (mine_block s miner ts rid hpw).1 = true →
      (mine_block (mine_block s miner ts rid hpw).2 miner2 ts2 rid2 hpw2).1 =
        true) := by
  by_cases he : s.pending_transactions = []
  · rw [mine_block_neg s miner ts rid hpw he]
    exact ⟨fun h => Bool.noConfusion h, fun _ _ _ _ => rfl,
           fun _ _ _ _ h => Bool.noConfusion h⟩
  · rw [mine_block_pos s miner ts rid hpw he]
    refine ⟨fun _ => by simp, fun _ _ _ _ => rfl, ?_⟩
    intro miner2 ts2 rid2 hpw2 _
    rw [mine_block_pos _ miner2 ts2 rid2 hpw2 (by simp)]

/-- Witness for C10: on the fixture, the first mine succeeds and the second
mine (timestamp `"T2"`, whose candidate admits nonce 33315) succeeds as
well. -/
theorem C10_mine_enables_mine_witness :
    (mine_block S1 "M" "T17123" "RRRRRRRRRR" hpw1).1 = true ∧
    (mine_block (mine_block S1 "M" "T17123" "RRRRRRRRRR" hpw1).2
      "M2" "T2" "QQQQQQQQQQ" hpw2).1 = true := by
  have ht : (mine_block S1 "M" "T17123" "RRRRRRRRRR" hpw1).1 = true := by
    rw [mine_block_pos S1 "M" "T17123" "RRRRRRRRRR" hpw1 S1_ne]
  exact ⟨ht,
    (C10_mine_enables_mine S1 "M" "T17123" "RRRRRRRRRR" hpw1).2.2
      "M2" "T2" "QQQQQQQQQQ" hpw2 ht⟩
